import Mathlib

/-!
# Swift threading layer, C11 backend: run-once gate and lazy mutex

Shallow embedding of `include/swift/Threading/Impl/C11.h` and
`lib/Threading/C11.cpp`.

Every thread is a program counter over the statements of the function it
executes; one step of the interleaving semantics executes one atomic access
or one native call of one thread.  The history of accesses and calls is kept
in `trace`.

What the embedding assumes of the host primitives:

* Atomic accesses are sequentially consistent (the acquire / release /
  relaxed annotations of the source are not represented).
* A native call takes its result code from the label of the step, so the
  fatal branch of `SWIFT_C11THREADS_CHECK` is part of the model; a process
  that reached `swift::threading::fatal` takes no further step.
* A mutex is `mtx_plain`: `mtx_lock` returns only when the mutex has no
  owner, and blocks otherwise, also when the owner is the caller.
  `mtx_unlock` leaves the mutex without owner.
* `cnd_wait` releases the mutex and blocks in one step; the thread is woken
  by `cnd_broadcast` or spuriously, and then has to take the mutex again.
* The initializer `fn` touches neither the predicate nor the coordinator.
-/

namespace SwiftThreadingC11

/-! ## Result codes and the two checking macros -/

/-- The two enumeration constants of `<threads.h>` that the source names. -/
structure ThrdCodes where
  thrd_success : Int
  thrd_busy : Int

/-- The values glibc and musl give the constants. -/
def glibcCodes : ThrdCodes := ⟨0, 1⟩

/-- The macro `SWIFT_C11THREADS_CHECK(expr)`: `true` when the statement falls through,
`false` when `swift::threading::fatal` is reached (`res_ != thrd_success`). -/
def SWIFT_C11THREADS_CHECK (K : ThrdCodes) (res_ : Int) : Bool :=
  !(res_ != K.thrd_success)

/-- The macro `SWIFT_C11THREADS_RETURN_TRUE_OR_FALSE(expr)`: the `switch` on the result
code; `Except.error` carries the code handed to `swift::threading::fatal`. -/
def SWIFT_C11THREADS_RETURN_TRUE_OR_FALSE (K : ThrdCodes) (res_ : Int) : Except Int Bool :=
  if res_ = K.thrd_success then .ok true
  else if res_ = K.thrd_busy then .ok false
  else .error res_

/-- The function `mutex_try_lock(handle)`, as a function of what `::mtx_trylock(&handle)` returned. -/
def mutex_try_lock (K : ThrdCodes) (trylockResult : Int) : Except Int Bool :=
  SWIFT_C11THREADS_RETURN_TRUE_OR_FALSE K trylockResult

/-! ## Labels and history -/

/-- One scheduling decision: thread `t` executes its next statement, the
native call in it (if any) returning `rc`; or thread `t`, blocked inside
`cnd_wait`, wakes up without a broadcast. -/
inductive Label where
  | run (t : Nat) (rc : Int)
  | wake (t : Nat)
  deriving DecidableEq, Repr

/-- What the history records. `t` is the executing thread. -/
inductive Event where
  | load (t : Nat) (seen : Int)
  | casOk (t : Nat)
  | casFail (t : Nat) (seen : Int)
  | store (t : Nat) (v : Int)
  | fnCall (t : Nat) (fn : Nat) (context : Nat)
  | fnRet (t : Nat)
  | mtxInit (t : Nat) (rc : Int)
  | mtxDestroy (t : Nat) (rc : Int)
  | mtxLock (t : Nat) (rc : Int)
  | mtxUnlock (t : Nat) (rc : Int)
  | mtxTrylock (t : Nat) (rc : Int)
  | cndWait (t : Nat) (rc : Int)
  | cndBroadcast (t : Nat) (rc : Int)
  | returns (t : Nat) (value : Option Bool)
  | fatal (t : Nat) (rc : Int)
  deriving DecidableEq, Repr

/-- A call of the initializer. -/
def Event.isFnCall : Event → Bool
  | .fnCall _ _ _ => true
  | _ => false

/-- A return of the initializer. -/
def Event.isFnRet : Event → Bool
  | .fnRet _ => true
  | _ => false

/-- A compare-exchange 0 → 1 that succeeded. -/
def Event.isCasOk : Event → Bool
  | .casOk _ => true
  | _ => false

/-- A call of `mtx_init`. -/
def Event.isMtxInit : Event → Bool
  | .mtxInit _ _ => true
  | _ => false

/-- How often the initializer was called. -/
def fnCalls (tr : List Event) : Nat := tr.countP Event.isFnCall

/-- How often the initializer returned. -/
def fnRets (tr : List Event) : Nat := tr.countP Event.isFnRet

/-- How many compare-exchanges 0 → 1 succeeded. -/
def casOks (tr : List Event) : Nat := tr.countP Event.isCasOk

/-- How often `mtx_init` was called. -/
def mtxInits (tr : List Event) : Nat := tr.countP Event.isMtxInit

/-! ## The run-once gate: `once_impl`, `once_slow`, `C11ThreadingHelper` -/

/-- The arguments of one call `once_impl(predicate, fn, context)`; the two
pointers are represented by numbers. -/
structure OnceCall where
  fn : Nat
  context : Nat
  deriving DecidableEq, Repr

/-- Statements of `once_impl` / `once_slow` / `once_wait` a thread can be at. -/
inductive OncePc where
  /-- in `once_impl`, before the acquire load (C11.h:148) -/
  | entry
  /-- in `once_slow`, before the compare-exchange (C11.cpp:76) -/
  | cas
  /-- before `fn(context)` (C11.cpp:81) -/
  | callFn
  /-- inside `fn` -/
  | inFn
  /-- before the release store of -1 (C11.cpp:83) -/
  | store
  /-- before `helper.once_lock()` of the winner (C11.cpp:85) -/
  | wLock
  /-- before `helper.once_unlock()` of the winner (C11.cpp:86) -/
  | wUnlock
  /-- before `helper.once_broadcast()` (C11.cpp:87) -/
  | wBroadcast
  /-- before `helper.once_lock()` of a loser (C11.cpp:91) -/
  | lLock
  /-- before the load of the `while` condition (C11.cpp:92) -/
  | lCheck
  /-- in `once_wait`, before `mtx_lock(&onceMutex_)` (C11.cpp:52) -/
  | waitLock
  /-- in `once_wait`, before `cnd_wait(&onceCond_, &onceMutex_)` (C11.cpp:53) -/
  | waitCnd
  /-- inside `cnd_wait`, the mutex released, not yet woken -/
  | waitBlocked
  /-- inside `cnd_wait`, woken, before the mutex is reacquired -/
  | waitWoken
  /-- in `once_wait`, before `mtx_unlock(&onceMutex_)` (C11.cpp:54) -/
  | waitUnlock
  /-- before `helper.once_unlock()` after the loop (C11.cpp:95) -/
  | lUnlock
  /-- the call of `once_impl` has returned -/
  | returned
  deriving DecidableEq, Repr

/-- Between the successful compare-exchange and the store of -1. -/
def OncePc.initializing : OncePc → Bool
  | .callFn => true
  | .inFn => true
  | .store => true
  | _ => false

/-- Statements that follow a successful `mtx_lock(&onceMutex_)` of the same
thread and precede the matching release. -/
def OncePc.afterLock : OncePc → Bool
  | .wUnlock => true
  | .lCheck => true
  | .waitLock => true
  | .waitCnd => true
  | .waitUnlock => true
  | .lUnlock => true
  | _ => false

/-- Threads racing on one `once_t`, with the process-wide `helper`.
`onceMutex` is the owner of `helper.onceMutex_`; the waiters of
`helper.onceCond_` are the threads at `waitBlocked`. -/
structure OnceState where
  n : Nat
  args : Nat → OnceCall
  predicate : Int
  pcs : Nat → OncePc
  onceMutex : Option Nat
  fatal : Bool
  trace : List Event

/-- The state of `n` threads about to call `once_impl` on a predicate holding `tag`;
`helper` constructed, its mutex free, nobody waiting. -/
def OnceState.init (n : Nat) (args : Nat → OnceCall) (tag : Int) : OnceState :=
  { n := n, args := args, predicate := tag, pcs := fun _ => .entry,
    onceMutex := none, fatal := false, trace := [] }

/-- Thread `t` moves to `pc`, the history gains `es`. -/
def OnceState.goto (s : OnceState) (t : Nat) (pc : OncePc) (es : List Event) : OnceState :=
  { s with pcs := Function.update s.pcs t pc, trace := s.trace ++ es }

/-- The call of `swift::threading::fatal` by thread `t` after the native call
recorded as `e` returned `rc`: the process ends. -/
def OnceState.abort (s : OnceState) (t : Nat) (e : Event) (rc : Int) : OnceState :=
  { s with fatal := true, trace := s.trace ++ [e, .fatal t rc] }

/-- The effect of `cnd_broadcast`: every thread blocked in `cnd_wait` is woken. -/
def wakeAll (pcs : Nat → OncePc) : Nat → OncePc :=
  fun j => if pcs j = .waitBlocked then .waitWoken else pcs j

/-- One step of one thread of the run-once gate. `none`: the label is not
enabled (the thread does not exist, has returned, the process has ended, or
the thread is blocked: in `mtx_lock` on a mutex that has an owner, the caller
included since `mtx_plain` is not recursive, or in `cnd_wait`). -/
def onceStep (K : ThrdCodes) (s : OnceState) : Label → Option OnceState
  | .wake t =>
    if s.fatal = true ∨ ¬ t < s.n then none
    else match s.pcs t with
      | .waitBlocked => some (s.goto t .waitWoken [])
      | _ => none
  | .run t rc =>
    if s.fatal = true ∨ ¬ t < s.n then none
    else match s.pcs t with
      | .entry =>
        if s.predicate < 0 then some (s.goto t .returned [.load t s.predicate, .returns t none])
        else some (s.goto t .cas [.load t s.predicate])
      | .cas =>
        if s.predicate = 0 then some ({ s with predicate := 1 }.goto t .callFn [.casOk t])
        else some (s.goto t .lLock [.casFail t s.predicate])
      | .callFn => some (s.goto t .inFn [.fnCall t (s.args t).fn (s.args t).context])
      | .inFn => some (s.goto t .store [.fnRet t])
      | .store => some ({ s with predicate := -1 }.goto t .wLock [.store t (-1)])
      | .wLock =>
        if s.onceMutex ≠ none then none
        else if SWIFT_C11THREADS_CHECK K rc then
          some ({ s with onceMutex := some t }.goto t .wUnlock [.mtxLock t rc])
        else some (s.abort t (.mtxLock t rc) rc)
      | .wUnlock =>
        if SWIFT_C11THREADS_CHECK K rc then
          some ({ s with onceMutex := none }.goto t .wBroadcast [.mtxUnlock t rc])
        else some (s.abort t (.mtxUnlock t rc) rc)
      | .wBroadcast =>
        if SWIFT_C11THREADS_CHECK K rc then
          some ({ s with pcs := wakeAll s.pcs }.goto t .returned [.cndBroadcast t rc, .returns t none])
        else some (s.abort t (.cndBroadcast t rc) rc)
      | .lLock =>
        if s.onceMutex ≠ none then none
        else if SWIFT_C11THREADS_CHECK K rc then
          some ({ s with onceMutex := some t }.goto t .lCheck [.mtxLock t rc])
        else some (s.abort t (.mtxLock t rc) rc)
      | .lCheck =>
        if s.predicate ≥ 0 then some (s.goto t .waitLock [.load t s.predicate])
        else some (s.goto t .lUnlock [.load t s.predicate])
      | .waitLock =>
        if s.onceMutex ≠ none then none
        else if SWIFT_C11THREADS_CHECK K rc then
          some ({ s with onceMutex := some t }.goto t .waitCnd [.mtxLock t rc])
        else some (s.abort t (.mtxLock t rc) rc)
      | .waitCnd => some ({ s with onceMutex := none }.goto t .waitBlocked [])
      | .waitBlocked => none
      | .waitWoken =>
        if s.onceMutex ≠ none then none
        else if SWIFT_C11THREADS_CHECK K rc then
          some ({ s with onceMutex := some t }.goto t .waitUnlock [.cndWait t rc])
        else some (s.abort t (.cndWait t rc) rc)
      | .waitUnlock =>
        if SWIFT_C11THREADS_CHECK K rc then
          some ({ s with onceMutex := none }.goto t .lCheck [.mtxUnlock t rc])
        else some (s.abort t (.mtxUnlock t rc) rc)
      | .lUnlock =>
        if SWIFT_C11THREADS_CHECK K rc then
          some ({ s with onceMutex := none }.goto t .returned [.mtxUnlock t rc, .returns t none])
        else some (s.abort t (.mtxUnlock t rc) rc)
      | .returned => none

/-- Run a schedule; a label that is not enabled is skipped. Every
interleaving of the threads is the run of some schedule. -/
def onceExec (K : ThrdCodes) (s : OnceState) : List Label → OnceState
  | [] => s
  | l :: ls => onceExec K ((onceStep K s l).getD s) ls

/-! ## The lazy mutex: `lazy_mutex_handle` and its operations -/

/-- What the model keeps of a `::mtx_t`: whether `mtx_init` has constructed
it (and `mtx_destroy` not torn it down), and the thread that holds it. -/
structure NativeMutex where
  constructed : Bool
  owner : Option Nat
  deriving DecidableEq, Repr

/-- The `struct lazy_mutex_handle`. -/
structure lazy_mutex_handle where
  mutex : NativeMutex
  /-- -1 = initialized, 0 = uninitialized, 1 = initializing -/
  once : Int
  deriving DecidableEq, Repr

/-- The value of `lazy_mutex_initializer()`, `(lazy_mutex_handle){0}`: the tag is
0 and the native mutex is not constructed. -/
def lazy_mutex_initializer : lazy_mutex_handle :=
  { mutex := { constructed := false, owner := none }, once := 0 }

/-- The function of the lazy-mutex interface a thread calls. -/
inductive LazyOp where
  | lazy_mutex_init
  | lazy_mutex_destroy
  | lazy_mutex_lock
  | lazy_mutex_unlock
  | lazy_mutex_try_lock
  | lazy_mutex_unsafe_lock
  | lazy_mutex_unsafe_unlock
  deriving DecidableEq, Repr

/-- Statements of the lazy-mutex functions a thread can be at. -/
inductive LazyPc where
  /-- in `lazy_mutex_init`, before the acquire load (C11.h:95) -/
  | entry
  /-- before the compare-exchange (C11.h:98) -/
  | cas
  /-- before `::mtx_init(&handle.mutex, ::mtx_plain)` (C11.h:103) -/
  | mtxInit
  /-- before the release store of -1 (C11.h:104) -/
  | store
  /-- before a load of the spin loop (C11.h:108) -/
  | spin
  /-- the call of `lazy_mutex_init` has returned into a wrapper, which is before its
  native call (C11.h:120, 124, 128, 133, 137) -/
  | native
  /-- in `lazy_mutex_destroy`, before the acquire load (C11.h:114) -/
  | dLoad
  /-- before `::mtx_destroy(&handle.mutex)` (C11.h:115) -/
  | dDestroy
  /-- the called function has returned -/
  | returned
  deriving DecidableEq, Repr

/-- First statement of each function. -/
def LazyPc.start : LazyOp → LazyPc
  | .lazy_mutex_destroy => .dLoad
  | _ => .entry

/-- Where a thread continues when the `lazy_mutex_init` it called returns. -/
def LazyPc.afterInit : LazyOp → LazyPc
  | .lazy_mutex_init => .returned
  | .lazy_mutex_destroy => .returned
  | _ => .native

/-- The call `lazy_mutex_init(handle)` of this thread has returned. -/
def LazyPc.initReturned : LazyPc → Bool
  | .native => true
  | .returned => true
  | _ => false

/-- Threads operating on one `lazy_mutex_handle`. `retval` is what a
finished `lazy_mutex_try_lock` returned. -/
structure LazyState where
  n : Nat
  ops : Nat → LazyOp
  handle : lazy_mutex_handle
  pcs : Nat → LazyPc
  retval : Nat → Option Bool
  fatal : Bool
  trace : List Event

/-- The state of `n` threads, thread `t` about to call `ops t` on `handle`. -/
def LazyState.init (n : Nat) (ops : Nat → LazyOp) (handle : lazy_mutex_handle) : LazyState :=
  { n := n, ops := ops, handle := handle, pcs := fun t => LazyPc.start (ops t),
    retval := fun _ => none, fatal := false, trace := [] }

/-- Thread `t` moves to `pc`, the history gains `es`. -/
def LazyState.goto (s : LazyState) (t : Nat) (pc : LazyPc) (es : List Event) : LazyState :=
  { s with pcs := Function.update s.pcs t pc, trace := s.trace ++ es }

/-- The call of `swift::threading::fatal` by thread `t`: the process ends. -/
def LazyState.abort (s : LazyState) (t : Nat) (e : Event) (rc : Int) : LazyState :=
  { s with fatal := true, trace := s.trace ++ [e, .fatal t rc] }

/-- A write of `handle.once`. -/
def LazyState.setOnce (s : LazyState) (v : Int) : LazyState :=
  { s with handle := { s.handle with once := v } }

/-- A change of `handle.mutex`. -/
def LazyState.setMutex (s : LazyState) (m : NativeMutex) : LazyState :=
  { s with handle := { s.handle with mutex := m } }

/-- The native call that ends a wrapper (`lazy_mutex_lock`, ...), issued by
thread `t` and returning `rc`. A `mtx_lock` on a held mutex blocks, and a
`mtx_trylock` does not report success on a held mutex. -/
def lazyNative (K : ThrdCodes) (s : LazyState) (t : Nat) (rc : Int) : Option LazyState :=
  match s.ops t with
  | .lazy_mutex_lock =>
    if s.handle.mutex.owner ≠ none then none
    else if SWIFT_C11THREADS_CHECK K rc then
      some ((s.setMutex { s.handle.mutex with owner := some t }).goto t .returned
        [.mtxLock t rc, .returns t none])
    else some (s.abort t (.mtxLock t rc) rc)
  | .lazy_mutex_unlock =>
    if SWIFT_C11THREADS_CHECK K rc then
      some ((s.setMutex { s.handle.mutex with owner := none }).goto t .returned
        [.mtxUnlock t rc, .returns t none])
    else some (s.abort t (.mtxUnlock t rc) rc)
  | .lazy_mutex_try_lock =>
    match SWIFT_C11THREADS_RETURN_TRUE_OR_FALSE K rc with
    | .ok true =>
      if s.handle.mutex.owner ≠ none then none
      else some ({ (s.setMutex { s.handle.mutex with owner := some t }) with
          retval := Function.update s.retval t (some true) }.goto t .returned
        [.mtxTrylock t rc, .returns t (some true)])
    | .ok false =>
      some ({ s with retval := Function.update s.retval t (some false) }.goto t .returned
        [.mtxTrylock t rc, .returns t (some false)])
    | .error e => some (s.abort t (.mtxTrylock t rc) e)
  | .lazy_mutex_unsafe_lock =>
    if s.handle.mutex.owner ≠ none then none
    else if rc = K.thrd_success then
      some ((s.setMutex { s.handle.mutex with owner := some t }).goto t .returned
        [.mtxLock t rc, .returns t none])
    else some (s.goto t .returned [.mtxLock t rc, .returns t none])
  | .lazy_mutex_unsafe_unlock =>
    if rc = K.thrd_success then
      some ((s.setMutex { s.handle.mutex with owner := none }).goto t .returned
        [.mtxUnlock t rc, .returns t none])
    else some (s.goto t .returned [.mtxUnlock t rc, .returns t none])
  | .lazy_mutex_init => none
  | .lazy_mutex_destroy => none

/-- One step of one thread on the lazy mutex. -/
def lazyStep (K : ThrdCodes) (s : LazyState) : Label → Option LazyState
  | .wake _ => none
  | .run t rc =>
    if s.fatal = true ∨ ¬ t < s.n then none
    else match s.pcs t with
      | .entry =>
        if s.handle.once < 0 then
          some (s.goto t (LazyPc.afterInit (s.ops t)) [.load t s.handle.once])
        else some (s.goto t .cas [.load t s.handle.once])
      | .cas =>
        if s.handle.once = 0 then some ((s.setOnce 1).goto t .mtxInit [.casOk t])
        else some (s.goto t .spin [.casFail t s.handle.once])
      | .mtxInit =>
        if SWIFT_C11THREADS_CHECK K rc then
          some ((s.setMutex { constructed := true, owner := none }).goto t .store [.mtxInit t rc])
        else some (s.abort t (.mtxInit t rc) rc)
      | .store =>
        some ((s.setOnce (-1)).goto t (LazyPc.afterInit (s.ops t)) [.store t (-1)])
      | .spin =>
        if s.handle.once ≥ 0 then some (s.goto t .spin [.load t s.handle.once])
        else some (s.goto t (LazyPc.afterInit (s.ops t)) [.load t s.handle.once])
      | .native => lazyNative K s t rc
      | .dLoad =>
        if s.handle.once < 0 then some (s.goto t .dDestroy [.load t s.handle.once])
        else some (s.goto t .returned [.load t s.handle.once])
      | .dDestroy =>
        if SWIFT_C11THREADS_CHECK K rc then
          some ((s.setMutex { s.handle.mutex with constructed := false }).goto t .returned
            [.mtxDestroy t rc])
        else some (s.abort t (.mtxDestroy t rc) rc)
      | .returned => none

/-- Run a schedule on the lazy mutex; a label that is not enabled is skipped. -/
def lazyExec (K : ThrdCodes) (s : LazyState) : List Label → LazyState
  | [] => s
  | l :: ls => lazyExec K ((lazyStep K s l).getD s) ls

/-! ## Invariants -/

/-- Statements of `once_wait` behind its `mtx_lock`. -/
def OncePc.behindWaitLock : OncePc → Bool
  | .waitCnd => true
  | .waitBlocked => true
  | .waitWoken => true
  | .waitUnlock => true
  | _ => false

/-- What holds of thread `i` at statement `pc`, in terms of the shared
variables: the predicate, the owner of the coordinator lock, and the numbers
of calls of and returns from the initializer so far. -/
def OnceOk (tag : Int) (owner : Option Nat) (calls rets : Nat) (i : Nat) (pc : OncePc) : Prop :=
  (pc.afterLock = true ↔ owner = some i) ∧ pc.behindWaitLock = false ∧
  match pc with
  | .callFn => tag = 1 ∧ calls = 0
  | .inFn => tag = 1 ∧ calls = 1 ∧ rets = 0
  | .store => tag = 1 ∧ calls = 1 ∧ rets = 1
  | .wLock => tag = -1
  | .wUnlock => tag = -1
  | .wBroadcast => tag = -1
  | .lUnlock => tag = -1
  | .returned => tag = -1
  | .lLock => tag ≠ 0
  | .lCheck => tag ≠ 0
  | .waitLock => tag ≠ 0
  | _ => True

/-- The inductive invariant of the run-once gate. -/
structure OnceInv (s : OnceState) : Prop where
  tagv : s.predicate = 0 ∨ s.predicate = 1 ∨ s.predicate = -1
  fresh : s.predicate = 0 → fnCalls s.trace = 0 ∧ casOks s.trace = 0
  casOne : s.predicate ≠ 0 → casOks s.trace = 1
  done : s.predicate = -1 → fnCalls s.trace = 1 ∧ fnRets s.trace = 1
  calls : fnCalls s.trace ≤ 1 ∧ fnRets s.trace ≤ fnCalls s.trace
  threads : ∀ i, OnceOk s.predicate s.onceMutex (fnCalls s.trace) (fnRets s.trace) i (s.pcs i)
  uniq : ∀ i j, (s.pcs i).initializing = true → (s.pcs j).initializing = true → i = j
  who : ∀ i f c, Event.fnCall i f c ∈ s.trace →
    Event.casOk i ∈ s.trace ∧ f = (s.args i).fn ∧ c = (s.args i).context
  winner : ∀ i, (s.pcs i).initializing = true → Event.casOk i ∈ s.trace

/-- Between the successful compare-exchange and the store of -1. -/
def LazyPc.initializing : LazyPc → Bool
  | .mtxInit => true
  | .store => true
  | _ => false

/-- What holds of a thread that called `op` and is at statement `pc`, in
terms of the tag, the number of `mtx_init` calls so far and whether the
process has ended. -/
def LazyOk (tag : Int) (inits : Nat) (dead : Bool) (op : LazyOp) (pc : LazyPc) : Prop :=
  match pc with
  | .mtxInit => tag = 1 ∧ (dead = false → inits = 0)
  | .store => tag = 1 ∧ inits = 1
  | .spin => tag ≠ 0
  | .native => tag = -1
  | .dLoad => op = .lazy_mutex_destroy
  | .dDestroy => tag = -1 ∧ op = .lazy_mutex_destroy
  | .returned => op ≠ .lazy_mutex_destroy → tag = -1
  | _ => True

/-- The inductive invariant of the lazy mutex. -/
structure LazyInv (s : LazyState) : Prop where
  tagv : s.handle.once = 0 ∨ s.handle.once = 1 ∨ s.handle.once = -1
  fresh : s.handle.once = 0 → mtxInits s.trace = 0 ∧ casOks s.trace = 0
  casOne : s.handle.once ≠ 0 → casOks s.trace = 1
  done : s.handle.once = -1 → mtxInits s.trace = 1
  inits : mtxInits s.trace ≤ 1
  threads : ∀ i, LazyOk s.handle.once (mtxInits s.trace) s.fatal (s.ops i) (s.pcs i)
  uniq : ∀ i j, (s.pcs i).initializing = true → (s.pcs j).initializing = true → i = j

/-- With no thread calling `lazy_mutex_destroy`: the mutex is constructed
once the tag is -1, and already when the initializing thread is before its
store. -/
structure LazyBuilt (s : LazyState) : Prop where
  nodestroy : ∀ i, s.ops i ≠ .lazy_mutex_destroy
  tagged : s.handle.once = -1 → s.handle.mutex.constructed = true
  stored : ∀ i, s.pcs i = .store → s.handle.mutex.constructed = true

/-- The tag moves along `0 → 1 → -1` or stays. -/
def TagStep (tag tag' : Int) : Prop :=
  tag' = tag ∨ (tag = 0 ∧ tag' = 1) ∨ (tag = 1 ∧ tag' = -1)

/-! ## Concrete runs -/

/-- Thread `t` passes the function pointer 7 and the context `100 + t`. -/
def sampleArgs : Nat → OnceCall := fun t => ⟨7, 100 + t⟩

/-- A schedule of two threads in which both calls return: thread 0 wins and
finishes, thread 1 takes the fast path. -/
def schedSerial : List Label :=
  [.run 0 0, .run 0 0, .run 0 0, .run 0 0, .run 0 0, .run 0 0, .run 0 0, .run 0 0, .run 1 0]

/-- Thread 0 wins the compare-exchange; thread 1 loses it, takes the
coordinator lock and finds the predicate still 1, which sends it into
`once_wait`; thread 0 then runs the initializer and stores -1. -/
def schedRace : List Label :=
  [.run 0 0, .run 0 0, .run 1 0, .run 1 0, .run 1 0, .run 1 0, .run 0 0, .run 0 0, .run 0 0]

/-- The eight statements of the winner path, every native call succeeding. -/
def schedWinner (K : ThrdCodes) (t : Nat) : List Label :=
  List.replicate 8 (.run t K.thrd_success)

/-- Every thread calls `lazy_mutex_lock`. -/
def allLock : Nat → LazyOp := fun _ => .lazy_mutex_lock

/-- Two threads lock a fresh lazy mutex: thread 0 wins the compare-exchange,
thread 1 loses it and spins once before thread 0 constructs the mutex. -/
def schedLazyRace : List Label :=
  [.run 0 0, .run 1 0, .run 0 0, .run 1 0, .run 1 0, .run 0 0, .run 0 0, .run 1 0, .run 0 0]

/-- One thread about to call `once_impl` on a predicate that is already -1. -/
def onceDone : OnceState := OnceState.init 1 sampleArgs (-1)

/-- One thread about to call `lazy_mutex_lock` on a handle whose tag is
already -1. -/
def lazyDone : LazyState :=
  LazyState.init 1 allLock { mutex := { constructed := true, owner := none }, once := -1 }

/-- Thread 0 calls `lazy_mutex_destroy`, every other thread `lazy_mutex_lock`. -/
def destroyFirst : Nat → LazyOp := fun t => if t = 0 then .lazy_mutex_destroy else .lazy_mutex_lock

/-- Thread 0 calls `lazy_mutex_lock`, every other thread `lazy_mutex_try_lock`. -/
def lockThenTry : Nat → LazyOp := fun t => if t = 0 then .lazy_mutex_lock else .lazy_mutex_try_lock

/-- Thread 0 constructs and locks the mutex; thread 1 then passes the fast
path of `lazy_mutex_init` and is before its `mtx_trylock`. -/
def schedHeld : List Label :=
  [.run 0 0, .run 0 0, .run 0 0, .run 0 0, .run 0 0, .run 1 0]

/-! ## Proofs -/

@[simp] theorem fnCalls_append (a b : List Event) : fnCalls (a ++ b) = fnCalls a + fnCalls b := by
  simp [fnCalls]

@[simp] theorem fnRets_append (a b : List Event) : fnRets (a ++ b) = fnRets a + fnRets b := by
  simp [fnRets]

@[simp] theorem casOks_append (a b : List Event) : casOks (a ++ b) = casOks a + casOks b := by
  simp [casOks]

@[simp] theorem fnCalls_cons (e : Event) (b : List Event) :
    fnCalls (e :: b) = (if e.isFnCall then 1 else 0) + fnCalls b := by
  simp [fnCalls, List.countP_cons, Nat.add_comm]

@[simp] theorem fnRets_cons (e : Event) (b : List Event) :
    fnRets (e :: b) = (if e.isFnRet then 1 else 0) + fnRets b := by
  simp [fnRets, List.countP_cons, Nat.add_comm]

@[simp] theorem casOks_cons (e : Event) (b : List Event) :
    casOks (e :: b) = (if e.isCasOk then 1 else 0) + casOks b := by
  simp [casOks, List.countP_cons, Nat.add_comm]

@[simp] theorem fnCalls_nil : fnCalls [] = 0 := rfl

@[simp] theorem fnRets_nil : fnRets [] = 0 := rfl

@[simp] theorem casOks_nil : casOks [] = 0 := rfl

theorem onceInv_init (n : Nat) (args : Nat → OnceCall) : OnceInv (OnceState.init n args 0) := by
  constructor <;> simp [OnceState.init, OnceOk, OncePc.initializing,
    OncePc.afterLock, OncePc.behindWaitLock]

theorem wakeAll_eq (pcs : Nat → OncePc) (h : ∀ i, (pcs i).behindWaitLock = false) :
    wakeAll pcs = pcs := by
  funext j
  have := h j
  unfold wakeAll
  split
  · next hw => rw [hw] at this; simp [OncePc.behindWaitLock] at this
  · rfl

/-- The shape every step has: one thread moves, the shared variables take
new values, the history grows. The premises are what is left to check for the
particular statement executed. -/
theorem onceInv_update (s : OnceState) (t : Nat) (tag : Int) (owner : Option Nat) (pc : OncePc)
    (es : List Event) (h : OnceInv s)
    (htag : tag = 0 ∨ tag = 1 ∨ tag = -1)
    (hfresh : tag = 0 → fnCalls (s.trace ++ es) = 0 ∧ casOks (s.trace ++ es) = 0)
    (hcas : tag ≠ 0 → casOks (s.trace ++ es) = 1)
    (hdone : tag = -1 → fnCalls (s.trace ++ es) = 1 ∧ fnRets (s.trace ++ es) = 1)
    (hcalls : fnCalls (s.trace ++ es) ≤ 1 ∧ fnRets (s.trace ++ es) ≤ fnCalls (s.trace ++ es))
    (hself : OnceOk tag owner (fnCalls (s.trace ++ es)) (fnRets (s.trace ++ es)) t pc)
    (hothers : ∀ i, i ≠ t → ((s.pcs t).initializing = true → (s.pcs i).initializing = false) →
      OnceOk s.predicate s.onceMutex (fnCalls s.trace) (fnRets s.trace) i (s.pcs i) →
      OnceOk tag owner (fnCalls (s.trace ++ es)) (fnRets (s.trace ++ es)) i (s.pcs i))
    (hinit : pc.initializing = true →
      (s.pcs t).initializing = true ∨ ∀ i, (s.pcs i).initializing = false)
    (hwho : ∀ i f c, Event.fnCall i f c ∈ es →
      Event.casOk i ∈ s.trace ++ es ∧ f = (s.args i).fn ∧ c = (s.args i).context)
    (hwin : pc.initializing = true → Event.casOk t ∈ s.trace ++ es) :
    OnceInv ({ s with predicate := tag, onceMutex := owner }.goto t pc es) := by
  obtain ⟨-, -, -, -, -, threads, uniq, who, winner⟩ := h
  have hne : ∀ i, i ≠ t → (s.pcs t).initializing = true → (s.pcs i).initializing = false := by
    intro i hi ht
    cases hq : (s.pcs i).initializing
    · rfl
    · exact absurd (uniq i t hq ht) hi
  constructor
  all_goals simp only [OnceState.goto]
  · exact htag
  · exact hfresh
  · exact hcas
  · exact hdone
  · exact hcalls
  · intro i
    by_cases hi : i = t
    · subst hi; simpa using hself
    · simpa [Function.update_noteq hi] using hothers i hi (hne i hi) (threads i)
  · intro i j
    by_cases hi : i = t <;> by_cases hj : j = t
    · intros; rw [hi, hj]
    · subst hi
      simp only [Function.update_same, Function.update_noteq hj]
      intro a b
      rcases hinit a with h1 | h1
      · exact uniq _ _ h1 b
      · rw [h1 j] at b; exact absurd b (by simp)
    · subst hj
      simp only [Function.update_same, Function.update_noteq hi]
      intro a b
      rcases hinit b with h1 | h1
      · exact uniq _ _ a h1
      · rw [h1 i] at a; exact absurd a (by simp)
    · simp only [Function.update_noteq hi, Function.update_noteq hj]; exact uniq i j
  · intro i f c hm
    rw [List.mem_append] at hm
    rcases hm with hm | hm
    · have := who i f c hm
      exact ⟨List.mem_append_left _ this.1, this.2⟩
    · exact hwho i f c hm
  · intro i
    by_cases hi : i = t
    · subst hi; simpa using hwin
    · simp only [Function.update_noteq hi]; intro a; exact List.mem_append_left _ (winner _ a)

/-- The fatal path keeps the invariant: it moves no thread and changes no
shared variable. -/
theorem onceInv_abort (s : OnceState) (t : Nat) (e : Event) (rc : Int) (h : OnceInv s)
    (he : e.isFnCall = false ∧ e.isFnRet = false ∧ e.isCasOk = false) :
    OnceInv (s.abort t e rc) := by
  have c1 : fnCalls [e, .fatal t rc] = 0 := by
    simp [he.1, show (Event.fatal t rc).isFnCall = false from rfl]
  have c2 : fnRets [e, .fatal t rc] = 0 := by
    simp [he.2.1, show (Event.fatal t rc).isFnRet = false from rfl]
  have c3 : casOks [e, .fatal t rc] = 0 := by
    simp [he.2.2, show (Event.fatal t rc).isCasOk = false from rfl]
  obtain ⟨tagv, fresh, casOne, done, calls, threads, uniq, who, winner⟩ := h
  constructor
  all_goals simp only [OnceState.abort, fnCalls_append, fnRets_append, casOks_append, c1, c2, c3,
    Nat.add_zero]
  · exact tagv
  · exact fresh
  · exact casOne
  · exact done
  · exact calls
  · exact threads
  · exact uniq
  · intro i f c hm
    rw [List.mem_append] at hm
    rcases hm with hm | hm
    · have := who i f c hm
      exact ⟨List.mem_append_left _ this.1, this.2⟩
    · simp only [List.mem_cons, List.mem_singleton, List.not_mem_nil, or_false] at hm
      rcases hm with hm | hm
      · subst hm; simp [Event.isFnCall] at he
      · cases hm
  · intro i a; exact List.mem_append_left _ (winner i a)

set_option maxHeartbeats 4000000 in
theorem onceInv_step (K : ThrdCodes) (s s' : OnceState) (l : Label) (h : OnceInv s)
    (hs : onceStep K s l = some s') : OnceInv s' := by
  have hnw : ∀ i, (s.pcs i).behindWaitLock = false := fun i => (h.threads i).2.1
  cases l with
  | wake t =>
    have := hnw t
    simp only [onceStep] at hs
    split at hs
    · simp at hs
    · cases hpc : s.pcs t <;> simp [hpc] at hs
      simp [hpc, OncePc.behindWaitLock] at this
  | run t rc =>
    simp only [onceStep] at hs
    split at hs
    · simp at hs
    · have ht := h.threads t
      have hc := h.calls
      have hf := h.fresh
      have hd := h.done
      have h1 := h.casOne
      have hv := h.tagv
      have hw := wakeAll_eq s.pcs hnw
      have hwt := h.winner t
      have hit : ∀ i, (s.pcs i).initializing = true → s.predicate = 1 := by
        intro i hi
        have := h.threads i
        revert this hi
        cases s.pcs i <;> simp [OnceOk, OncePc.initializing] <;> omega
      cases hpc : s.pcs t <;> simp only [hpc, hw] at hs ht
      all_goals simp only [OnceOk, OncePc.afterLock, OncePc.behindWaitLock, true_iff, false_iff,
        true_and, and_true, Bool.false_eq_true, reduceCtorEq] at ht
      all_goals repeat' split at hs
      all_goals simp only [Option.some.injEq, reduceCtorEq] at hs
      all_goals subst hs
      all_goals first
        | (apply onceInv_abort _ _ _ _ h; simp [Event.isFnCall, Event.isFnRet, Event.isCasOk])
        | skip
      all_goals refine onceInv_update s t _ _ _ _ h ?_ ?_ ?_ ?_ ?_ ?_ ?_ ?_ ?_ ?_
      all_goals first
        | (exact ht.elim)
        | (exact hv)
        | (intro i hi hu hok
           simpa only [fnCalls_append, fnRets_append, fnCalls_cons, fnRets_cons, fnCalls_nil,
             fnRets_nil, Event.isFnCall, Event.isFnRet, Bool.false_eq_true, if_false,
             Nat.add_zero] using hok)
        | (intro i hi hu hok
           clear h hnw hw hit hwt
           revert hok hu
           cases s.pcs i <;>
             first
               | (simp [OnceOk, OncePc.afterLock, OncePc.behindWaitLock, OncePc.initializing, hpc,
                   Event.isFnCall, Event.isFnRet, Event.isCasOk] <;> omega)
               | (simp_all [OnceOk, OncePc.afterLock, OncePc.behindWaitLock,
                   OncePc.initializing, Event.isFnCall, Event.isFnRet, Event.isCasOk] <;> omega))
        | (simp [OnceOk, OncePc.afterLock, OncePc.behindWaitLock, OncePc.initializing, hpc,
               Event.isFnCall, Event.isFnRet, Event.isCasOk] <;> omega)
        | (clear h hnw hw
           simp_all [OnceOk, OncePc.afterLock, OncePc.behindWaitLock, OncePc.initializing,
               Event.isFnCall, Event.isFnRet, Event.isCasOk] <;> omega)

theorem onceInv_exec (K : ThrdCodes) (ls : List Label) (s : OnceState) (h : OnceInv s) :
    OnceInv (onceExec K s ls) := by
  induction ls generalizing s with
  | nil => exact h
  | cons l ls ih =>
    simp only [onceExec]
    cases hq : onceStep K s l with
    | none => simpa using ih s h
    | some s' => simpa using ih s' (onceInv_step K s s' l h hq)

theorem onceInv_reach (K : ThrdCodes) (n : Nat) (args : Nat → OnceCall) (ls : List Label) :
    OnceInv (onceExec K (OnceState.init n args 0) ls) :=
  onceInv_exec K ls _ (onceInv_init n args)

/-- C1 (exactly-once). For every number `n ≥ 1` of threads that each call
`once_impl` once on a predicate starting at 0, and every schedule `ls`: the
initializer has been called at most once; it has been called exactly once
when all `n` calls have returned; at most one compare-exchange has succeeded;
and every thread that called the initializer is one whose compare-exchange
succeeded. -/
theorem once_exactly_once (K : ThrdCodes) (n : Nat) (args : Nat → OnceCall) (ls : List Label)
    (hn : 1 ≤ n) :
    fnCalls (onceExec K (OnceState.init n args 0) ls).trace ≤ 1 ∧
    ((∀ i, i < n → (onceExec K (OnceState.init n args 0) ls).pcs i = .returned) →
      fnCalls (onceExec K (OnceState.init n args 0) ls).trace = 1) ∧
    casOks (onceExec K (OnceState.init n args 0) ls).trace ≤ 1 ∧
    (∀ i f c, Event.fnCall i f c ∈ (onceExec K (OnceState.init n args 0) ls).trace →
      Event.casOk i ∈ (onceExec K (OnceState.init n args 0) ls).trace) := by
  have h := onceInv_reach K n args ls
  refine ⟨h.calls.1, ?_, ?_, fun i f c hm => (h.who i f c hm).1⟩
  · intro hall
    have h0 := h.threads 0
    rw [hall 0 (by omega)] at h0
    exact (h.done h0.2.2).1
  · rcases h.tagv with h0 | h0 | h0
    · rw [(h.fresh h0).2]; omega
    · rw [h.casOne (by omega)]
    · rw [h.casOne (by omega)]

theorem once_exactly_once_witness :
    1 ≤ 2 ∧ (∀ i, i < 2 → (onceExec glibcCodes (OnceState.init 2 sampleArgs 0) schedSerial).pcs i = .returned) ∧
    fnCalls (onceExec glibcCodes (OnceState.init 2 sampleArgs 0) schedSerial).trace = 1 :=
  ⟨by decide, by decide,
    (once_exactly_once glibcCodes 2 sampleArgs schedSerial (by decide)).2.1 (by decide)⟩

/-- C2 (no premature return). In every state reached by threads calling
`once_impl` on a predicate starting at 0, a thread whose call has returned
(by the winner path, the loser path or the fast path) finds the predicate at
-1 and the initializer called once and returned once. -/
theorem once_no_premature_return (K : ThrdCodes) (n : Nat) (args : Nat → OnceCall)
    (ls : List Label) (i : Nat)
    (hret : (onceExec K (OnceState.init n args 0) ls).pcs i = .returned) :
    (onceExec K (OnceState.init n args 0) ls).predicate = -1 ∧
    fnCalls (onceExec K (OnceState.init n args 0) ls).trace = 1 ∧
    fnRets (onceExec K (OnceState.init n args 0) ls).trace = 1 := by
  have h := onceInv_reach K n args ls
  have hi := h.threads i
  rw [hret] at hi
  exact ⟨hi.2.2, h.done hi.2.2⟩

theorem once_no_premature_return_witness :
    (onceExec glibcCodes (OnceState.init 2 sampleArgs 0) schedSerial).pcs 1 = .returned ∧
    (onceExec glibcCodes (OnceState.init 2 sampleArgs 0) schedSerial).predicate = -1 ∧
    fnCalls (onceExec glibcCodes (OnceState.init 2 sampleArgs 0) schedSerial).trace = 1 ∧
    fnRets (onceExec glibcCodes (OnceState.init 2 sampleArgs 0) schedSerial).trace = 1 :=
  ⟨by decide, once_no_premature_return glibcCodes 2 sampleArgs schedSerial 1 (by decide)⟩

/-- No label is enabled once the winner waits for the lock a loser holds
while that loser waits for the same lock inside `once_wait`. -/
theorem onceStep_stuck (K : ThrdCodes) (s : OnceState) (hn : s.n = 2)
    (h0 : s.pcs 0 = .wLock) (h1 : s.pcs 1 = .waitLock) (ho : s.onceMutex = some 1) (l : Label) :
    onceStep K s l = none := by
  cases l with
  | wake t =>
    simp only [onceStep]
    split
    · rfl
    · next hc =>
      have : t = 0 ∨ t = 1 := by simp only [hn] at hc; omega
      rcases this with rfl | rfl
      · simp [h0]
      · simp [h1]
  | run t rc =>
    simp only [onceStep]
    split
    · rfl
    · next hc =>
      have : t = 0 ∨ t = 1 := by simp only [hn] at hc; omega
      rcases this with rfl | rfl
      · simp [h0, ho]
      · simp [h1, ho]

/-- C3 (the deadlock). Two threads race `once_impl` on a predicate starting
at 0 along `schedRace`, every native call succeeding. The state reached has
not ended in `fatal`, the initializer has returned and -1 is stored, yet
thread 0 is before the `once_lock` of the winner path, thread 1 is before the
`mtx_lock` of `once_wait` while it owns `onceMutex_` itself, and no label at
all is enabled: neither call ever returns. -/
theorem once_slow_deadlock :
    (onceExec glibcCodes (OnceState.init 2 sampleArgs 0) schedRace).fatal = false ∧
    (onceExec glibcCodes (OnceState.init 2 sampleArgs 0) schedRace).predicate = -1 ∧
    fnRets (onceExec glibcCodes (OnceState.init 2 sampleArgs 0) schedRace).trace = 1 ∧
    (onceExec glibcCodes (OnceState.init 2 sampleArgs 0) schedRace).pcs 0 = .wLock ∧
    (onceExec glibcCodes (OnceState.init 2 sampleArgs 0) schedRace).pcs 1 = .waitLock ∧
    (onceExec glibcCodes (OnceState.init 2 sampleArgs 0) schedRace).onceMutex = some 1 ∧
    ∀ l, onceStep glibcCodes (onceExec glibcCodes (OnceState.init 2 sampleArgs 0) schedRace) l = none :=
  ⟨by decide, by decide, by decide, by decide, by decide, by decide,
    onceStep_stuck glibcCodes _ (by decide) (by decide) (by decide) (by decide)⟩

/-- C9 (the second lock). After the first six steps of `schedRace` the
loser, thread 1, has locked `onceMutex_` once (the one `mtxLock` of the
history), still owns it, and its next statement is the `mtx_lock` of
`once_wait` on that same mutex; with a plain mutex that call does not return,
whatever result code is offered. -/
theorem once_wait_locks_owned_mutex :
    (onceExec glibcCodes (OnceState.init 2 sampleArgs 0) (schedRace.take 6)).pcs 1 = .waitLock ∧
    (onceExec glibcCodes (OnceState.init 2 sampleArgs 0) (schedRace.take 6)).onceMutex = some 1 ∧
    (onceExec glibcCodes (OnceState.init 2 sampleArgs 0) (schedRace.take 6)).trace =
      [.load 0 0, .casOk 0, .load 1 1, .casFail 1 1, .mtxLock 1 0, .load 1 1] ∧
    ∀ rc, onceStep glibcCodes (onceExec glibcCodes (OnceState.init 2 sampleArgs 0) (schedRace.take 6))
      (.run 1 rc) = none := by
  refine ⟨by decide, by decide, by decide, ?_⟩
  intro rc
  have h1 : (onceExec glibcCodes (OnceState.init 2 sampleArgs 0) (schedRace.take 6)).pcs 1 = .waitLock := by
    decide
  have h2 : (onceExec glibcCodes (OnceState.init 2 sampleArgs 0) (schedRace.take 6)).onceMutex = some 1 := by
    decide
  simp only [onceStep, h1, h2]
  simp

/-- C10 (winner path). A thread `t` that calls `once_impl` when the predicate
is 0, the coordinator lock is free and every other thread is either not yet
started or has returned, and that runs alone with every native call
succeeding, performs in this order: the acquire load (seeing 0), the
successful compare-exchange, the call of `fn` with exactly its `context`, the
return of `fn`, the store of -1, `mtx_lock`, `mtx_unlock` and
`cnd_broadcast` on the coordinator, and returns; the predicate is then -1,
the coordinator lock free, and nothing else has changed. -/
theorem once_winner_path (K : ThrdCodes) (s : OnceState) (t : Nat)
    (hlive : s.fatal = false) (ht : t < s.n) (hpc : s.pcs t = .entry)
    (htag : s.predicate = 0) (hfree : s.onceMutex = none)
    (hidle : ∀ j, j ≠ t → s.pcs j = .entry ∨ s.pcs j = .returned) :
    onceExec K s (schedWinner K t) =
      { s with
        predicate := -1
        onceMutex := none
        pcs := Function.update s.pcs t .returned
        trace := s.trace ++
          [.load t 0, .casOk t, .fnCall t (s.args t).fn (s.args t).context, .fnRet t,
           .store t (-1), .mtxLock t K.thrd_success, .mtxUnlock t K.thrd_success,
           .cndBroadcast t K.thrd_success, .returns t none] } := by
  have hw : wakeAll (Function.update s.pcs t .wBroadcast) =
      Function.update s.pcs t .wBroadcast := by
    funext j
    by_cases hj : j = t
    · subst hj; simp [wakeAll]
    · rcases hidle j hj with h | h <;> simp [wakeAll, Function.update_noteq hj, h]
  simp [schedWinner, List.replicate, onceExec, onceStep, OnceState.goto, hlive, ht, hpc, htag,
    hfree, SWIFT_C11THREADS_CHECK, hw]

theorem once_winner_path_witness :
    onceExec glibcCodes (OnceState.init 1 sampleArgs 0) (schedWinner glibcCodes 0) =
      { OnceState.init 1 sampleArgs 0 with
        predicate := -1
        onceMutex := none
        pcs := Function.update (OnceState.init 1 sampleArgs 0).pcs 0 .returned
        trace := (OnceState.init 1 sampleArgs 0).trace ++
          [.load 0 0, .casOk 0, .fnCall 0 (sampleArgs 0).fn (sampleArgs 0).context, .fnRet 0,
           .store 0 (-1), .mtxLock 0 glibcCodes.thrd_success, .mtxUnlock 0 glibcCodes.thrd_success,
           .cndBroadcast 0 glibcCodes.thrd_success, .returns 0 none] } :=
  once_winner_path glibcCodes (OnceState.init 1 sampleArgs 0) 0 rfl (by decide) rfl rfl rfl
    (fun _ _ => Or.inl rfl)

@[simp] theorem mtxInits_append (a b : List Event) :
    mtxInits (a ++ b) = mtxInits a + mtxInits b := by
  simp [mtxInits]

@[simp] theorem mtxInits_cons (e : Event) (b : List Event) :
    mtxInits (e :: b) = (if e.isMtxInit then 1 else 0) + mtxInits b := by
  simp [mtxInits, List.countP_cons, Nat.add_comm]

@[simp] theorem mtxInits_nil : mtxInits [] = 0 := rfl

theorem lazyInv_init (n : Nat) (ops : Nat → LazyOp) :
    LazyInv (LazyState.init n ops lazy_mutex_initializer) := by
  constructor <;> simp [LazyState.init, lazy_mutex_initializer]
  · intro i; cases ops i <;> simp [LazyOk, LazyPc.start]
  · intro i j; cases ops i <;> simp [LazyPc.initializing, LazyPc.start]

/-- The shape every step on the lazy mutex has. -/
theorem lazyInv_update (s : LazyState) (t : Nat) (hd : lazy_mutex_handle) (rv : Nat → Option Bool)
    (pc : LazyPc) (es : List Event) (h : LazyInv s)
    (htag : hd.once = 0 ∨ hd.once = 1 ∨ hd.once = -1)
    (hfresh : hd.once = 0 → mtxInits (s.trace ++ es) = 0 ∧ casOks (s.trace ++ es) = 0)
    (hcas : hd.once ≠ 0 → casOks (s.trace ++ es) = 1)
    (hdone : hd.once = -1 → mtxInits (s.trace ++ es) = 1)
    (hinits : mtxInits (s.trace ++ es) ≤ 1)
    (hself : LazyOk hd.once (mtxInits (s.trace ++ es)) s.fatal (s.ops t) pc)
    (hothers : ∀ i, i ≠ t → ((s.pcs t).initializing = true → (s.pcs i).initializing = false) →
      LazyOk s.handle.once (mtxInits s.trace) s.fatal (s.ops i) (s.pcs i) →
      LazyOk hd.once (mtxInits (s.trace ++ es)) s.fatal (s.ops i) (s.pcs i))
    (hinit : pc.initializing = true →
      (s.pcs t).initializing = true ∨ ∀ i, (s.pcs i).initializing = false) :
    LazyInv ({ s with handle := hd, retval := rv }.goto t pc es) := by
  obtain ⟨-, -, -, -, -, threads, uniq⟩ := h
  have hne : ∀ i, i ≠ t → (s.pcs t).initializing = true → (s.pcs i).initializing = false := by
    intro i hi ht
    cases hq : (s.pcs i).initializing
    · rfl
    · exact absurd (uniq i t hq ht) hi
  constructor
  all_goals simp only [LazyState.goto]
  · exact htag
  · exact hfresh
  · exact hcas
  · exact hdone
  · exact hinits
  · intro i
    by_cases hi : i = t
    · subst hi; simpa using hself
    · simpa [Function.update_noteq hi] using hothers i hi (hne i hi) (threads i)
  · intro i j
    by_cases hi : i = t <;> by_cases hj : j = t
    · intros; rw [hi, hj]
    · subst hi
      simp only [Function.update_same, Function.update_noteq hj]
      intro a b
      rcases hinit a with h1 | h1
      · exact uniq _ _ h1 b
      · rw [h1 j] at b; exact absurd b (by simp)
    · subst hj
      simp only [Function.update_same, Function.update_noteq hi]
      intro a b
      rcases hinit b with h1 | h1
      · exact uniq _ _ a h1
      · rw [h1 i] at a; exact absurd a (by simp)
    · simp only [Function.update_noteq hi, Function.update_noteq hj]; exact uniq i j

/-- The fatal path after a failed native call other than `mtx_init`. -/
theorem lazyInv_abort (s : LazyState) (t : Nat) (e : Event) (rc : Int) (h : LazyInv s)
    (hm : e.isMtxInit = false) (hc : e.isCasOk = false) :
    LazyInv (s.abort t e rc) := by
  have c3 : casOks [e, .fatal t rc] = 0 := by
    simp [hc, show (Event.fatal t rc).isCasOk = false from rfl]
  have c1 : mtxInits [e, .fatal t rc] = 0 := by
    simp [hm, show (Event.fatal t rc).isMtxInit = false from rfl]
  obtain ⟨tagv, fresh, casOne, done, inits, threads, uniq⟩ := h
  constructor
  all_goals simp only [LazyState.abort, mtxInits_append, casOks_append, c1, c3, Nat.add_zero]
  · exact tagv
  · exact fresh
  · exact casOne
  · exact done
  · exact inits
  · intro i
    have := threads i
    revert this
    cases s.pcs i <;> simp [LazyOk]
    intro a _; exact a
  · exact uniq

/-- The fatal path after a failed `mtx_init`. -/
theorem lazyInv_abort_init (s : LazyState) (t : Nat) (rc : Int) (h : LazyInv s)
    (hlive : s.fatal = false) (hpc : s.pcs t = .mtxInit) :
    LazyInv (s.abort t (.mtxInit t rc) rc) := by
  have c3 : casOks [Event.mtxInit t rc, .fatal t rc] = 0 := by
    simp [Event.isCasOk]
  have c1 : mtxInits [Event.mtxInit t rc, .fatal t rc] = 1 := by
    simp [Event.isMtxInit]
  obtain ⟨tagv, fresh, casOne, done, inits, threads, uniq⟩ := h
  have ht := threads t
  rw [hpc] at ht
  simp only [LazyOk, hlive, true_implies] at ht
  constructor
  all_goals simp only [LazyState.abort, mtxInits_append, casOks_append, c1, c3, Nat.add_zero]
  · exact tagv
  · intro h0; omega
  · exact casOne
  · intro h0; omega
  · omega
  · intro i
    have hi := threads i
    have hu := uniq i t
    rw [hpc] at hu
    revert hi hu
    cases s.pcs i <;> simp [LazyOk, LazyPc.initializing] <;> omega
  · exact uniq

set_option maxHeartbeats 4000000 in
theorem lazyInv_step (K : ThrdCodes) (s s' : LazyState) (l : Label) (h : LazyInv s)
    (hs : lazyStep K s l = some s') : LazyInv s' := by
  cases l with
  | wake t => simp [lazyStep] at hs
  | run t rc =>
    simp only [lazyStep] at hs
    split at hs
    · simp at hs
    · next hlive =>
      have hlive : s.fatal = false := by
        cases hq : s.fatal
        · rfl
        · exact absurd (Or.inl hq) hlive
      have ht := h.threads t
      have hc := h.inits
      have hf := h.fresh
      have hd := h.done
      have h1 := h.casOne
      have hv := h.tagv
      have hit : ∀ i, (s.pcs i).initializing = true → s.handle.once = 1 := by
        intro i hi
        have := h.threads i
        revert this hi
        cases s.pcs i <;> simp [LazyOk, LazyPc.initializing] <;> omega
      cases hpc : s.pcs t <;> simp only [hpc, lazyNative] at hs ht
      all_goals try simp only [LazyOk, hlive, true_implies] at ht
      all_goals repeat' split at hs
      all_goals simp only [Option.some.injEq, reduceCtorEq] at hs
      all_goals subst hs
      all_goals try simp only [LazyState.setOnce, LazyState.setMutex]
      all_goals first
        | (exact lazyInv_abort_init s t rc h hlive hpc)
        | (apply lazyInv_abort _ _ _ _ h <;> rfl)
        | skip
      all_goals refine lazyInv_update s t _ _ _ _ h ?_ ?_ ?_ ?_ ?_ ?_ ?_ ?_
      all_goals first
        | (exact hv)
        | (intro i hi hu hok
           simpa only [mtxInits_append, mtxInits_cons, mtxInits_nil, Event.isMtxInit,
             Bool.false_eq_true, if_false, Nat.add_zero] using hok)
        | (intro i hi hu hok
           clear h hit
           revert hok hu
           cases s.pcs i <;>
             first
               | (simp [LazyOk, LazyPc.initializing, hpc, Event.isMtxInit, Event.isCasOk] <;>
                   omega)
               | (simp_all [LazyOk, LazyPc.initializing, Event.isMtxInit, Event.isCasOk]))
        | (intro _; right; intro i
           cases hq : (s.pcs i).initializing
           · rfl
           · have := hit i hq; omega)
        | (simp [LazyOk, LazyPc.initializing, hpc, Event.isMtxInit, Event.isCasOk] <;> omega)
        | (clear h hit
           simp_all [LazyOk, LazyPc.initializing, Event.isMtxInit, Event.isCasOk] <;> omega)
        | (clear h hit
           cases hop : s.ops t <;>
             simp_all [LazyOk, LazyPc.initializing, LazyPc.afterInit, Event.isMtxInit,
               Event.isCasOk] <;> omega)

theorem lazyInv_exec (K : ThrdCodes) (ls : List Label) (s : LazyState) (h : LazyInv s) :
    LazyInv (lazyExec K s ls) := by
  induction ls generalizing s with
  | nil => exact h
  | cons l ls ih =>
    simp only [lazyExec]
    cases hq : lazyStep K s l with
    | none => simpa using ih s h
    | some s' => simpa using ih s' (lazyInv_step K s s' l h hq)

theorem lazyInv_reach (K : ThrdCodes) (n : Nat) (ops : Nat → LazyOp) (ls : List Label) :
    LazyInv (lazyExec K (LazyState.init n ops lazy_mutex_initializer) ls) :=
  lazyInv_exec K ls _ (lazyInv_init n ops)

theorem lazyBuilt_init (n : Nat) (ops : Nat → LazyOp) (hops : ∀ i, ops i ≠ .lazy_mutex_destroy) :
    LazyBuilt (LazyState.init n ops lazy_mutex_initializer) := by
  constructor
  · exact hops
  · simp [LazyState.init, lazy_mutex_initializer]
  · intro i
    have := hops i
    revert this
    simp only [LazyState.init]
    cases ops i <;> simp [LazyPc.start]

set_option maxHeartbeats 2000000 in
theorem lazyBuilt_step (K : ThrdCodes) (s s' : LazyState) (l : Label) (h : LazyInv s)
    (hb : LazyBuilt s) (hs : lazyStep K s l = some s') : LazyBuilt s' := by
  obtain ⟨hops, tagged, stored⟩ := hb
  cases l with
  | wake t => simp [lazyStep] at hs
  | run t rc =>
    simp only [lazyStep] at hs
    split at hs
    · simp at hs
    · have ht := h.threads t
      have hot := hops t
      have hst := stored t
      cases hpc : s.pcs t <;> simp only [hpc, lazyNative] at hs ht hst
      all_goals try simp only [LazyOk] at ht
      all_goals repeat' split at hs
      all_goals simp only [Option.some.injEq, reduceCtorEq] at hs
      all_goals subst hs
      all_goals try simp only [LazyState.setOnce, LazyState.setMutex, LazyState.goto,
        LazyState.abort]
      all_goals constructor
      all_goals try simp only []
      all_goals first
        | exact hops
        | exact tagged
        | exact stored
        | (intro i
           by_cases hi : i = t
           · subst hi; clear stored; simp_all
           · simp only [Function.update_noteq hi]
             first | exact stored i | (intro hq; simp_all))
        | (clear stored; simp_all; done)
        | (intro hq; have := h.tagv; clear stored; simp_all; omega)
        | (intro i
           by_cases hi : i = t
           · subst hi; cases hop : s.ops i <;> simp [LazyPc.afterInit]
           · simp only [Function.update_noteq hi]; exact stored i)

theorem lazyBuilt_exec (K : ThrdCodes) (ls : List Label) (s : LazyState) (h : LazyInv s)
    (hb : LazyBuilt s) : LazyBuilt (lazyExec K s ls) := by
  induction ls generalizing s with
  | nil => exact hb
  | cons l ls ih =>
    simp only [lazyExec]
    cases hq : lazyStep K s l with
    | none => simpa using ih s h hb
    | some s' =>
      simpa using ih s' (lazyInv_step K s s' l h hq) (lazyBuilt_step K s s' l h hb hq)

/-- C5 (single construction). For threads that call `lazy_mutex_init`,
`lazy_mutex_lock`, `lazy_mutex_unlock`, `lazy_mutex_try_lock` or the unsafe
variants (none calls `lazy_mutex_destroy`) on a handle that starts as
`lazy_mutex_initializer()`, in every reachable state: `mtx_init` has been
called at most once, and for every thread whose `lazy_mutex_init` has
returned (it is before the native call of its wrapper, or has returned from
the wrapper) the tag is -1, the native mutex is constructed and `mtx_init`
was called exactly once. -/
theorem lazy_mutex_single_construction (K : ThrdCodes) (n : Nat) (ops : Nat → LazyOp)
    (ls : List Label) (hops : ∀ i, ops i ≠ .lazy_mutex_destroy) :
    mtxInits (lazyExec K (LazyState.init n ops lazy_mutex_initializer) ls).trace ≤ 1 ∧
    ∀ i, ((lazyExec K (LazyState.init n ops lazy_mutex_initializer) ls).pcs i).initReturned = true →
      (lazyExec K (LazyState.init n ops lazy_mutex_initializer) ls).handle.once = -1 ∧
      (lazyExec K (LazyState.init n ops lazy_mutex_initializer) ls).handle.mutex.constructed = true ∧
      mtxInits (lazyExec K (LazyState.init n ops lazy_mutex_initializer) ls).trace = 1 := by
  have h := lazyInv_reach K n ops ls
  have hb := lazyBuilt_exec K ls _ (lazyInv_init n ops) (lazyBuilt_init n ops hops)
  refine ⟨h.inits, ?_⟩
  intro i hi
  have hti := h.threads i
  have hoi := hb.nodestroy i
  have htag : (lazyExec K (LazyState.init n ops lazy_mutex_initializer) ls).handle.once = -1 := by
    revert hi hti
    cases (lazyExec K (LazyState.init n ops lazy_mutex_initializer) ls).pcs i <;>
      simp [LazyPc.initReturned, LazyOk]
    exact fun hx => hx hoi
  exact ⟨htag, hb.tagged htag, h.done htag⟩

theorem lazy_mutex_single_construction_witness :
    (∀ i, allLock i ≠ LazyOp.lazy_mutex_destroy) ∧
    ((lazyExec glibcCodes (LazyState.init 2 allLock lazy_mutex_initializer)
      schedLazyRace).pcs 1).initReturned = true ∧
    (lazyExec glibcCodes (LazyState.init 2 allLock lazy_mutex_initializer)
      schedLazyRace).handle.mutex.constructed = true ∧
    mtxInits (lazyExec glibcCodes (LazyState.init 2 allLock lazy_mutex_initializer)
      schedLazyRace).trace = 1 :=
  ⟨fun _ h => LazyOp.noConfusion h, by decide,
    ((lazy_mutex_single_construction glibcCodes 2 allLock schedLazyRace
      (fun _ h => LazyOp.noConfusion h)).2 1 (by decide)).2⟩

theorem onceExec_append (K : ThrdCodes) (ls ls' : List Label) (s : OnceState) :
    onceExec K s (ls ++ ls') = onceExec K (onceExec K s ls) ls' := by
  induction ls generalizing s with
  | nil => rfl
  | cons l ls ih => simp only [List.cons_append, onceExec]; exact ih _

theorem lazyExec_append (K : ThrdCodes) (ls ls' : List Label) (s : LazyState) :
    lazyExec K s (ls ++ ls') = lazyExec K (lazyExec K s ls) ls' := by
  induction ls generalizing s with
  | nil => rfl
  | cons l ls ih => simp only [List.cons_append, lazyExec]; exact ih _

theorem onceStep_tag (K : ThrdCodes) (s : OnceState) (l : Label) (h : OnceInv s) :
    TagStep s.predicate ((onceStep K s l).getD s).predicate := by
  cases l with
  | wake t =>
    simp only [onceStep]
    split
    · left; rfl
    · cases s.pcs t <;> simp [TagStep, OnceState.goto]
  | run t rc =>
    have ht := h.threads t
    simp only [onceStep]
    split
    · left; rfl
    · cases hpc : s.pcs t <;> simp only [hpc] at ht ⊢
      all_goals repeat' split
      all_goals simp [TagStep, OnceState.goto, OnceState.abort]
      all_goals simp only [OnceOk] at ht
      all_goals omega

theorem lazyStep_tag (K : ThrdCodes) (s : LazyState) (l : Label) (h : LazyInv s) :
    TagStep s.handle.once ((lazyStep K s l).getD s).handle.once := by
  cases l with
  | wake t => simp [lazyStep, TagStep]
  | run t rc =>
    have ht := h.threads t
    simp only [lazyStep]
    split
    · left; rfl
    · cases hpc : s.pcs t <;> simp only [hpc, lazyNative] at ht ⊢
      all_goals repeat' split
      all_goals simp [TagStep, LazyState.goto, LazyState.abort, LazyState.setOnce,
        LazyState.setMutex]
      all_goals simp only [LazyOk] at ht
      all_goals omega

theorem onceExec_final (K : ThrdCodes) (ls : List Label) (s : OnceState) (h : OnceInv s)
    (hd : s.predicate = -1) : (onceExec K s ls).predicate = -1 := by
  induction ls generalizing s with
  | nil => exact hd
  | cons l ls ih =>
    simp only [onceExec]
    have hi : OnceInv ((onceStep K s l).getD s) := by
      cases hq : onceStep K s l with
      | none => simpa using h
      | some s' => simpa using onceInv_step K s s' l h hq
    apply ih _ hi
    have := onceStep_tag K s l h
    simp only [TagStep] at this
    omega

theorem lazyExec_final (K : ThrdCodes) (ls : List Label) (s : LazyState) (h : LazyInv s)
    (hd : s.handle.once = -1) : (lazyExec K s ls).handle.once = -1 := by
  induction ls generalizing s with
  | nil => exact hd
  | cons l ls ih =>
    simp only [lazyExec]
    have hi : LazyInv ((lazyStep K s l).getD s) := by
      cases hq : lazyStep K s l with
      | none => simpa using h
      | some s' => simpa using lazyInv_step K s s' l h hq
    apply ih _ hi
    have := lazyStep_tag K s l h
    simp only [TagStep] at this
    omega

/-- C7 (tag monotonicity), for the run-once gate and for the lazy mutex
(whose threads may call any operation, `lazy_mutex_destroy` included), both
starting from tag 0. In the state reached by any schedule `ls`: the tag is 0,
1 or -1; one more label `l` leaves it unchanged or moves it 0 → 1 or 1 → -1;
at most one compare-exchange has succeeded; if the tag is -1 it is still -1
after any further schedule `ls'`; and `tag < 0` is `tag = -1`, `tag ≥ 0` is
`tag ≠ -1`. -/
theorem tag_monotone (K : ThrdCodes) (n : Nat) (args : Nat → OnceCall) (ops : Nat → LazyOp)
    (ls ls' : List Label) (l : Label) :
    (((onceExec K (OnceState.init n args 0) ls).predicate = 0 ∨
        (onceExec K (OnceState.init n args 0) ls).predicate = 1 ∨
        (onceExec K (OnceState.init n args 0) ls).predicate = -1) ∧
      TagStep (onceExec K (OnceState.init n args 0) ls).predicate
        (onceExec K (OnceState.init n args 0) (ls ++ [l])).predicate ∧
      casOks (onceExec K (OnceState.init n args 0) ls).trace ≤ 1 ∧
      ((onceExec K (OnceState.init n args 0) ls).predicate = -1 →
        (onceExec K (OnceState.init n args 0) (ls ++ ls')).predicate = -1) ∧
      ((onceExec K (OnceState.init n args 0) ls).predicate < 0 ↔
        (onceExec K (OnceState.init n args 0) ls).predicate = -1) ∧
      ((onceExec K (OnceState.init n args 0) ls).predicate ≥ 0 ↔
        (onceExec K (OnceState.init n args 0) ls).predicate ≠ -1)) ∧
    (((lazyExec K (LazyState.init n ops lazy_mutex_initializer) ls).handle.once = 0 ∨
        (lazyExec K (LazyState.init n ops lazy_mutex_initializer) ls).handle.once = 1 ∨
        (lazyExec K (LazyState.init n ops lazy_mutex_initializer) ls).handle.once = -1) ∧
      TagStep (lazyExec K (LazyState.init n ops lazy_mutex_initializer) ls).handle.once
        (lazyExec K (LazyState.init n ops lazy_mutex_initializer) (ls ++ [l])).handle.once ∧
      casOks (lazyExec K (LazyState.init n ops lazy_mutex_initializer) ls).trace ≤ 1 ∧
      ((lazyExec K (LazyState.init n ops lazy_mutex_initializer) ls).handle.once = -1 →
        (lazyExec K (LazyState.init n ops lazy_mutex_initializer) (ls ++ ls')).handle.once = -1) ∧
      ((lazyExec K (LazyState.init n ops lazy_mutex_initializer) ls).handle.once < 0 ↔
        (lazyExec K (LazyState.init n ops lazy_mutex_initializer) ls).handle.once = -1) ∧
      ((lazyExec K (LazyState.init n ops lazy_mutex_initializer) ls).handle.once ≥ 0 ↔
        (lazyExec K (LazyState.init n ops lazy_mutex_initializer) ls).handle.once ≠ -1)) := by
  have h := onceInv_reach K n args ls
  have g := lazyInv_reach K n ops ls
  constructor
  · refine ⟨h.tagv, ?_, ?_, ?_, ?_, ?_⟩
    · rw [onceExec_append]; exact onceStep_tag K _ l h
    · rcases h.tagv with h0 | h0 | h0
      · rw [(h.fresh h0).2]; omega
      · rw [h.casOne (by omega)]
      · rw [h.casOne (by omega)]
    · intro hd; rw [onceExec_append]; exact onceExec_final K ls' _ h hd
    · have := h.tagv; omega
    · have := h.tagv; omega
  · refine ⟨g.tagv, ?_, ?_, ?_, ?_, ?_⟩
    · rw [lazyExec_append]; exact lazyStep_tag K _ l g
    · rcases g.tagv with h0 | h0 | h0
      · rw [(g.fresh h0).2]; omega
      · rw [g.casOne (by omega)]
      · rw [g.casOne (by omega)]
    · intro hd; rw [lazyExec_append]; exact lazyExec_final K ls' _ g hd
    · have := g.tagv; omega
    · have := g.tagv; omega

/-- C4 (fast path). A call of `once_impl` by thread `t` made in any state in
which the predicate is -1 is a single enabled step: the history gains the
one acquire load and the return, the thread has returned, and the predicate,
the coordinator lock, the waiters and every other thread are untouched.
Likewise a call of `lazy_mutex_init` by thread `u` on a handle whose tag is
-1: the history gains the one load, the thread is where `lazy_mutex_init`
returns to, and the handle is untouched. -/
theorem fast_path (K : ThrdCodes) (s : OnceState) (t : Nat) (rc : Int)
    (z : LazyState) (u : Nat) (rc' : Int)
    (hlive : s.fatal = false) (ht : t < s.n) (hpc : s.pcs t = .entry) (htag : s.predicate = -1)
    (zlive : z.fatal = false) (hu : u < z.n) (zpc : z.pcs u = .entry) (ztag : z.handle.once = -1) :
    onceStep K s (.run t rc) =
      some { s with
        pcs := Function.update s.pcs t .returned
        trace := s.trace ++ [.load t (-1), .returns t none] } ∧
    lazyStep K z (.run u rc') =
      some { z with
        pcs := Function.update z.pcs u (LazyPc.afterInit (z.ops u))
        trace := z.trace ++ [.load u (-1)] } := by
  constructor
  · simp [onceStep, hlive, ht, hpc, htag, OnceState.goto]
  · simp [lazyStep, zlive, hu, zpc, ztag, LazyState.goto]

theorem fast_path_witness :
    onceStep glibcCodes onceDone (.run 0 0) =
      some { onceDone with
        pcs := Function.update onceDone.pcs 0 .returned
        trace := onceDone.trace ++ [.load 0 (-1), .returns 0 none] } ∧
    lazyStep glibcCodes lazyDone (.run 0 0) =
      some { lazyDone with
        pcs := Function.update lazyDone.pcs 0 (LazyPc.afterInit (lazyDone.ops 0))
        trace := lazyDone.trace ++ [.load 0 (-1)] } :=
  fast_path glibcCodes onceDone 0 0 lazyDone 0 0 rfl (by decide) rfl rfl rfl (by decide) rfl rfl

/-- C6 (destroy). In a state `s` reached from `lazy_mutex_initializer()` in
which thread `t` is about to call `lazy_mutex_destroy`, letting `t` run to
the end of that call (two labels, the native call returning `rc`) adds to the
history the acquire load followed by `mtx_destroy` when the tag is -1, and
the acquire load only when it is not; the tag is unchanged; and when the tag
is not -1 the call returns, `fatal` is not reached and the handle is as it
was. -/
theorem lazy_mutex_destroy_iff (K : ThrdCodes) (n : Nat) (ops : Nat → LazyOp) (ls : List Label)
    (s : LazyState) (t : Nat) (rc : Int)
    (hs : s = lazyExec K (LazyState.init n ops lazy_mutex_initializer) ls)
    (hlive : s.fatal = false) (ht : t < s.n) (hpc : s.pcs t = .dLoad) :
    (lazyExec K s [.run t rc, .run t rc]).trace =
      s.trace ++
        (if s.handle.once = -1 then
          (if SWIFT_C11THREADS_CHECK K rc then [Event.load t (-1), .mtxDestroy t rc]
           else [Event.load t (-1), .mtxDestroy t rc, .fatal t rc])
         else [Event.load t s.handle.once]) ∧
    (lazyExec K s [.run t rc, .run t rc]).handle.once = s.handle.once ∧
    (s.handle.once ≠ -1 →
      (lazyExec K s [.run t rc, .run t rc]).fatal = false ∧
      (lazyExec K s [.run t rc, .run t rc]).pcs t = .returned ∧
      (lazyExec K s [.run t rc, .run t rc]).handle = s.handle) := by
  have h : LazyInv s := hs ▸ lazyInv_reach K n ops ls
  have hv := h.tagv
  by_cases hd : s.handle.once = -1
  · cases hc : SWIFT_C11THREADS_CHECK K rc <;>
      simp [lazyExec, lazyStep, hlive, ht, hpc, hd, hc, LazyState.goto, LazyState.abort,
        LazyState.setMutex]
  · have hge : ¬ s.handle.once < 0 := by omega
    simp [lazyExec, lazyStep, hlive, ht, hpc, hd, hge, LazyState.goto]

theorem lazy_mutex_destroy_iff_witness :
    (lazyExec glibcCodes (LazyState.init 1 destroyFirst lazy_mutex_initializer)
        [.run 0 0, .run 0 0]).trace = [] ++ [Event.load 0 0] ∧
    (lazyExec glibcCodes (LazyState.init 1 destroyFirst lazy_mutex_initializer)
        [.run 0 0, .run 0 0]).handle.once = 0 ∧
    (lazyExec glibcCodes (LazyState.init 1 destroyFirst lazy_mutex_initializer)
        [.run 0 0, .run 0 0]).fatal = false ∧
    (lazyExec glibcCodes (LazyState.init 1 destroyFirst lazy_mutex_initializer)
        [.run 0 0, .run 0 0]).pcs 0 = .returned ∧
    (lazyExec glibcCodes (LazyState.init 1 destroyFirst lazy_mutex_initializer)
        [.run 0 0, .run 0 0]).handle = lazy_mutex_initializer := by
  have h := lazy_mutex_destroy_iff glibcCodes 1 destroyFirst []
    (LazyState.init 1 destroyFirst lazy_mutex_initializer) 0 0 rfl rfl (by decide) rfl
  exact ⟨h.1, h.2.1, h.2.2 (by decide)⟩

/-- C8 (try-lock is tri-state). With `thrd_success` and `thrd_busy` distinct,
for every result code `r` of the native `mtx_trylock`: `mutex_try_lock`
returns true iff `r` is `thrd_success`, returns false iff `r` is `thrd_busy`,
and reaches `fatal` iff `r` is neither. The same holds of
`lazy_mutex_try_lock` in any state where thread `t` is past its
`lazy_mutex_init` and before its `mtx_trylock` (the native call reporting
success only on a free mutex): the step is enabled, and it returns true,
returns false, or ends the process in `fatal`, under the same three
conditions. -/
theorem try_lock_tristate (K : ThrdCodes) (r : Int) (s : LazyState) (t : Nat)
    (hK : K.thrd_success ≠ K.thrd_busy)
    (hlive : s.fatal = false) (ht : t < s.n) (hpc : s.pcs t = .native)
    (hop : s.ops t = .lazy_mutex_try_lock)
    (hnative : r = K.thrd_success → s.handle.mutex.owner = none) :
    ((mutex_try_lock K r = .ok true ↔ r = K.thrd_success) ∧
      (mutex_try_lock K r = .ok false ↔ r = K.thrd_busy) ∧
      ((∃ e, mutex_try_lock K r = .error e) ↔ r ≠ K.thrd_success ∧ r ≠ K.thrd_busy)) ∧
    ∃ s', lazyStep K s (.run t r) = some s' ∧
      (s'.retval t = some true ∧ s'.pcs t = .returned ∧ s'.fatal = false ↔ r = K.thrd_success) ∧
      (s'.retval t = some false ∧ s'.pcs t = .returned ∧ s'.fatal = false ↔ r = K.thrd_busy) ∧
      (s'.fatal = true ↔ r ≠ K.thrd_success ∧ r ≠ K.thrd_busy) := by
  constructor
  · unfold mutex_try_lock SWIFT_C11THREADS_RETURN_TRUE_OR_FALSE
    by_cases h1 : r = K.thrd_success
    · subst h1; simp [hK]
    · by_cases h2 : r = K.thrd_busy
      · subst h2; simp [h1]
      · simp [h1, h2]
  · by_cases h1 : r = K.thrd_success
    · have ho := hnative h1
      subst h1
      simp [lazyStep, lazyNative, hlive, ht, hpc, hop, ho, SWIFT_C11THREADS_RETURN_TRUE_OR_FALSE,
        LazyState.goto, LazyState.setMutex, hK]
    · by_cases h2 : r = K.thrd_busy
      · subst h2
        simp [lazyStep, lazyNative, hlive, ht, hpc, hop, SWIFT_C11THREADS_RETURN_TRUE_OR_FALSE,
          LazyState.goto, h1, hlive]
      · simp [lazyStep, lazyNative, hlive, ht, hpc, hop, SWIFT_C11THREADS_RETURN_TRUE_OR_FALSE,
          LazyState.abort, h1, h2]

theorem try_lock_tristate_witness :
    (lazyExec glibcCodes (LazyState.init 2 lockThenTry lazy_mutex_initializer) schedHeld).handle.mutex.owner
      = some 0 ∧
    ∃ s', lazyStep glibcCodes
        (lazyExec glibcCodes (LazyState.init 2 lockThenTry lazy_mutex_initializer) schedHeld)
        (.run 1 glibcCodes.thrd_busy) = some s' ∧
      s'.retval 1 = some false ∧ s'.pcs 1 = .returned ∧ s'.fatal = false := by
  refine ⟨by decide, ?_⟩
  obtain ⟨s', h1, -, h3, -⟩ := (try_lock_tristate glibcCodes glibcCodes.thrd_busy
    (lazyExec glibcCodes (LazyState.init 2 lockThenTry lazy_mutex_initializer) schedHeld) 1
    (by decide) (by decide) (by decide) (by decide) (by decide) (by decide)).2
  exact ⟨s', h1, h3.2 rfl⟩

end SwiftThreadingC11
